/-
Verification of the cacheit repository: an LRU+TTL cache (`cache.py`, class
`Cache`) layered over a pluggable key-value store, with the reference
in-memory backend (`memory_store.py`, classes `MemoryStore` and
`MemoryPipeline`).

Embedding conventions:
* Byte strings (Python `bytes`) are modelled as Lean `String`; `decode` is the
  identity.  Pickle serialization is treated at the byte level: the cache
  functions take and return the serialized byte string (`pickle.dumps` of the
  value); `pickle.loads` is the identity on those bytes.
* `time.time()` is modelled as an explicit `now : Nat` argument threaded into
  every operation that consults the clock.
* Each Python dict is a function `String → Option _`; deleting a key updates
  it to `none` (deleting an absent key, a no-op in the source, is modelled as
  updating to `none`, which is extensionally the same map).
* Store methods that mutate state (`_check_expiry` runs inside `get` and
  `exists`) return the new `MemoryStore` along with their result.
-/
import Mathlib

namespace Cacheit

/-- Python `bytes` values, with `decode`/`encode` as the identity. -/
abbrev Bytes := String

/-- Dictionary update / deletion: `upd m k v` is `m` with `k` bound to `v`
(`v = none` models `del m[k]`). -/
def upd (m : String → Option α) (k : String) (v : Option α) : String → Option α :=
  fun k' => if k' = k then v else m k'

/-- `MemoryStore.__init__` (memory_store.py:8-13): four separate dictionaries,
one per kind of value.  `data` holds byte payloads, `lists` ordered lists,
`expiry` absolute expiry timestamps, `counters` the incr/decr integers. -/
structure MemoryStore where
  data : String → Option Bytes
  lists : String → Option (List String)
  expiry : String → Option Nat
  counters : String → Option Int

/-- A freshly constructed `MemoryStore()`: all four dictionaries empty. -/
def MemoryStore.empty : MemoryStore :=
  ⟨fun _ => none, fun _ => none, fun _ => none, fun _ => none⟩

/-- `MemoryStore._check_expiry` (memory_store.py:15-23): if `key` has an
expiry timestamp strictly in the past, delete the payload and the expiry
record and report `true`; otherwise report `false` and leave the store
unchanged. -/
def MemoryStore._check_expiry (now : Nat) (st : MemoryStore) (key : String) :
    Bool × MemoryStore :=
  match st.expiry key with
  | some e =>
      if e < now then
        (true, { st with data := upd st.data key none, expiry := upd st.expiry key none })
      else (false, st)
  | none => (false, st)

/-- `MemoryStore.get` (memory_store.py:25-29). -/
def MemoryStore.get (now : Nat) (st : MemoryStore) (key : String) :
    Option Bytes × MemoryStore :=
  let p := st._check_expiry now key
  if p.1 then (none, p.2) else (p.2.data key, p.2)

/-- `MemoryStore.set` (memory_store.py:31-37): write the payload, and set the
expiry to `now + ttl` when a ttl is given, otherwise drop any prior expiry. -/
def MemoryStore.set (now : Nat) (st : MemoryStore) (key : String) (value : Bytes)
    (ttl : Option Nat) : Bool × MemoryStore :=
  let expiry' := match ttl with
    | some t => upd st.expiry key (some (now + t))
    | none => upd st.expiry key none
  (true, { st with data := upd st.data key (some value), expiry := expiry' })

/-- `MemoryStore.delete` (memory_store.py:39-45): only consults and mutates
`data` (and the matching `expiry` record); lists and counters are untouched. -/
def MemoryStore.delete (st : MemoryStore) (key : String) : Bool × MemoryStore :=
  match st.data key with
  | some _ =>
      (true, { st with data := upd st.data key none, expiry := upd st.expiry key none })
  | none => (false, st)

/-- `MemoryStore.exists` (memory_store.py:47-50).  `exists` is a Lean keyword,
hence the trailing underscore. -/
def MemoryStore.exists_ (now : Nat) (st : MemoryStore) (key : String) :
    Bool × MemoryStore :=
  let p := st._check_expiry now key
  if p.1 then (false, p.2) else ((p.2.data key).isSome, p.2)

/-- Python list slice `l[a:b]` (negative indices count from the end, out of
range indices are clamped). -/
def pySlice (l : List α) (a b : Int) : List α :=
  let n : Int := l.length
  let a' := (if a < 0 then max (n + a) 0 else min a n).toNat
  let b' := (if b < 0 then max (n + b) 0 else min b n).toNat
  (l.take b').drop a'

/-- Python list indexing `l[i]` returning `none` instead of raising
`IndexError` (negative indices count from the end). -/
def pyIndex (l : List α) (i : Int) : Option α :=
  if 0 ≤ i then l.get? i.toNat
  else if 0 ≤ (l.length : Int) + i then l.get? ((l.length : Int) + i).toNat
  else none

/-- `MemoryStore.lrange` (memory_store.py:52-57): missing list gives `[]`;
`end = -1` is rewritten to the list length, then Python slicing
`l[start : end+1]` is applied. -/
def MemoryStore.lrange (st : MemoryStore) (key : String) (start stop : Int) :
    List String :=
  match st.lists key with
  | none => []
  | some l =>
      let stop' : Int := if stop = -1 then (l.length : Int) else stop
      pySlice l start (stop' + 1)

/-- `MemoryStore.lindex` (memory_store.py:59-65). -/
def MemoryStore.lindex (st : MemoryStore) (key : String) (i : Int) : Option String :=
  match st.lists key with
  | none => none
  | some l => pyIndex l i

/-- Python `list.remove(v)`: remove the first occurrence of `v`, or `none`
when `v` is absent (the source's `ValueError`). -/
def removeFirstOcc : List String → String → Option (List String)
  | [], _ => none
  | x :: xs, v => if x = v then some xs else (removeFirstOcc xs v).map (x :: ·)

/-- The `count > 0` loop of `MemoryStore.lrem` (memory_store.py:72-79):
repeatedly `list.remove(value)`, stopping at the first `ValueError`; returns
the final list and the number of removals. -/
def lremPosLoop : Nat → List String → String → List String × Nat
  | 0, l, _ => (l, 0)
  | Nat.succ n, l, v =>
      match removeFirstOcc l v with
      | none => (l, 0)
      | some l' =>
          let p := lremPosLoop n l' v
          (p.1, p.2 + 1)

/-- One step of the `count < 0` loop of `MemoryStore.lrem`
(memory_store.py:82-89): locate the last occurrence of `v` through
`len(l) - 1 - l[::-1].index(v)` and delete it; `none` when `v` is absent. -/
def removeLastOcc (l : List String) (v : String) : Option (List String) :=
  match l.reverse.indexOf? v with
  | none => none
  | some j => some (l.eraseIdx (l.length - 1 - j))

/-- The `count < 0` loop of `MemoryStore.lrem`: `abs(count)` attempts at
removing the last occurrence, stopping at the first failure. -/
def lremNegLoop : Nat → List String → String → List String × Nat
  | 0, l, _ => (l, 0)
  | Nat.succ n, l, v =>
      match removeLastOcc l v with
      | none => (l, 0)
      | some l' =>
          let p := lremNegLoop n l' v
          (p.1, p.2 + 1)

/-- `MemoryStore.lrem` (memory_store.py:67-96). -/
def MemoryStore.lrem (st : MemoryStore) (key : String) (count : Int) (value : String) :
    Nat × MemoryStore :=
  match st.lists key with
  | none => (0, st)
  | some l =>
      if 0 < count then
        let p := lremPosLoop count.toNat l value
        (p.2, { st with lists := upd st.lists key (some p.1) })
      else if count < 0 then
        let p := lremNegLoop count.natAbs l value
        (p.2, { st with lists := upd st.lists key (some p.1) })
      else
        let l' := l.filter (fun x => x != value)
        (l.length - l'.length, { st with lists := upd st.lists key (some l') })

/-- `MemoryStore.rpush` (memory_store.py:98-102): create the list when
missing, append all values, return the new length. -/
def MemoryStore.rpush (st : MemoryStore) (key : String) (values : List String) :
    Nat × MemoryStore :=
  let l := (st.lists key).getD []
  let l' := l ++ values
  (l'.length, { st with lists := upd st.lists key (some l') })

/-- `MemoryStore.incr` (memory_store.py:104-108): a counter in the separate
`counters` dictionary, implicitly 0 before the first use. -/
def MemoryStore.incr (st : MemoryStore) (key : String) : Int × MemoryStore :=
  let c := (st.counters key).getD 0
  (c + 1, { st with counters := upd st.counters key (some (c + 1)) })

/-- `MemoryStore.decr` (memory_store.py:110-114). -/
def MemoryStore.decr (st : MemoryStore) (key : String) : Int × MemoryStore :=
  let c := (st.counters key).getD 0
  (c - 1, { st with counters := upd st.counters key (some (c - 1)) })

/-! ## The pipeline (`MemoryPipeline`, memory_store.py:120-182)

A pipeline is a queue of pending operations plus the bound store.  An
enqueued operation is one of the tuples the fluent builder methods append;
`setex(key, ttl, value)` is recorded as `("set", key, value, ttl)`
(memory_store.py:135-137), so there is no separate `setex` constructor. -/

/-- A pending operation, as appended by the `MemoryPipeline` builder
methods (memory_store.py:127-157). -/
inductive Op where
  | get (key : String)
  | set (key : String) (value : Bytes) (ttl : Option Nat)
  | delete (key : String)
  | lrem (key : String) (count : Int) (value : String)
  | rpush (key : String) (values : List String)
  | incr (key : String)
  | decr (key : String)
deriving DecidableEq

/-- One per-operation result of `MemoryPipeline.execute`. -/
inductive OpResult where
  | bytes (b : Option Bytes)
  | bool (b : Bool)
  | int (n : Int)
  | nat (n : Nat)
deriving DecidableEq

/-- The store as seen from the pipeline loop: each backend call either
returns a result and the new store state, or raises (`Except.error ()`),
which is how the mocked store of `test_execute_with_exception`
(test_memory_store.py:412-425) behaves.  The real `MemoryStore` methods
never raise. -/
structure StoreImpl (σ : Type) where
  get : σ → String → Except Unit (Option Bytes × σ)
  set : σ → String → Bytes → Option Nat → Except Unit (Bool × σ)
  delete : σ → String → Except Unit (Bool × σ)
  lrem : σ → String → Int → String → Except Unit (Nat × σ)
  rpush : σ → String → List String → Except Unit (Nat × σ)
  incr : σ → String → Except Unit (Int × σ)
  decr : σ → String → Except Unit (Int × σ)

/-- The `MemoryStore` methods packaged for the pipeline loop; none of them
raises. -/
def memoryImpl (now : Nat) : StoreImpl MemoryStore where
  get := fun s k => .ok (MemoryStore.get now s k)
  set := fun s k v t => .ok (MemoryStore.set now s k v t)
  delete := fun s k => .ok (MemoryStore.delete s k)
  lrem := fun s k c v => .ok (MemoryStore.lrem s k c v)
  rpush := fun s k vs => .ok (MemoryStore.rpush s k vs)
  incr := fun s k => .ok (MemoryStore.incr s k)
  decr := fun s k => .ok (MemoryStore.decr s k)

/-- Modelled from `test_execute_with_exception` (test_memory_store.py:418):
the bound store's `get` is replaced by a mock that raises; every other
method is the real one. -/
def failingGetImpl (now : Nat) : StoreImpl MemoryStore :=
  { memoryImpl now with get := fun _ _ => .error () }

/-- `MemoryPipeline.__init__` (memory_store.py:123-125): the bound store and
the queue of pending operations. -/
structure MemoryPipeline (σ : Type) where
  store : σ
  operations : List Op

/-- Dispatch of one queued operation inside the `execute` loop
(memory_store.py:161-179). -/
def applyOp (impl : StoreImpl σ) (s : σ) : Op → Except Unit (OpResult × σ)
  | .get k => (impl.get s k).map (fun p => (.bytes p.1, p.2))
  | .set k v t => (impl.set s k v t).map (fun p => (.bool p.1, p.2))
  | .delete k => (impl.delete s k).map (fun p => (.bool p.1, p.2))
  | .lrem k c v => (impl.lrem s k c v).map (fun p => (.nat p.1, p.2))
  | .rpush k vs => (impl.rpush s k vs).map (fun p => (.nat p.1, p.2))
  | .incr k => (impl.incr s k).map (fun p => (.int p.1, p.2))
  | .decr k => (impl.decr s k).map (fun p => (.int p.1, p.2))

/-- The `for op in self.operations` loop of `MemoryPipeline.execute`
(memory_store.py:159-180): apply the operations in order, accumulating one
result per operation; a raising operation aborts the loop, discarding the
collected results but keeping the store state reached so far. -/
def execLoop (impl : StoreImpl σ) : σ → List Op → (Except Unit (List OpResult)) × σ
  | s, [] => (.ok [], s)
  | s, op :: ops =>
      match applyOp impl s op with
      | .error e => (.error e, s)
      | .ok (r, s') =>
          match execLoop impl s' ops with
          | (.ok rs, s'') => (.ok (r :: rs), s'')
          | (.error e, s'') => (.error e, s'')

/-- `MemoryPipeline.execute` (memory_store.py:159-182).  On success the
queue is reset (`self.operations = []`, line 181); when an operation raises,
the exception propagates before that line runs, so the queue keeps all its
operations. -/
def MemoryPipeline.execute (impl : StoreImpl σ) (p : MemoryPipeline σ) :
    (Except Unit (List OpResult)) × MemoryPipeline σ :=
  match execLoop impl p.store p.operations with
  | (.ok rs, s') => (.ok rs, { store := s', operations := [] })
  | (.error e, s') => (.error e, { store := s', operations := p.operations })

/-- The state effect of one pipelined operation on a `MemoryStore` (the
result value dropped). -/
def applyOpPure (now : Nat) (st : MemoryStore) : Op → MemoryStore
  | .get k => (MemoryStore.get now st k).2
  | .set k v t => (MemoryStore.set now st k v t).2
  | .delete k => (MemoryStore.delete st k).2
  | .lrem k c v => (MemoryStore.lrem st k c v).2
  | .rpush k vs => (MemoryStore.rpush st k vs).2
  | .incr k => (MemoryStore.incr st k).2
  | .decr k => (MemoryStore.decr st k).2

/-- Build a pipeline over the real in-memory store, queue `ops`, execute it
once, and keep the resulting store — the pattern every `Cache` method uses
(cache.py:177-180, 203-238, 257-261, 271-278). -/
def runPipe (now : Nat) (st : MemoryStore) (ops : List Op) : MemoryStore :=
  ((MemoryPipeline.mk st ops).execute (memoryImpl now)).2.store

/-! ## The LRU cache orchestrator (`Cache`, cache.py:117-295) -/

/-- `Cache` configuration (cache.py:123-147); the three fixed store keys are
the constants below. -/
structure Cache where
  max_size : Int
  ttl : Nat

/-- `self.cache_list_key` (cache.py:146). -/
def cache_list_key : String := "lru_cache:keys"

/-- `self.cache_size_key` (cache.py:147). -/
def cache_size_key : String := "lru_cache:size"

/-- `self.cache_data_prefix + key` (cache.py:145, 170, 197, 250). -/
def dataKey (key : String) : String := "lru_cache:data:" ++ key

/-- Decimal digit of a character, `none` for non-digits. -/
def charDigit (ch : Char) : Option Nat :=
  if '0' ≤ ch ∧ ch ≤ '9' then some (ch.toNat - '0'.toNat) else none

/-- Accumulating decimal parse of a character list; `none` on the first
non-digit. -/
def parseNatAux : List Char → Nat → Option Nat
  | [], acc => some acc
  | ch :: cs, acc =>
      match charDigit ch with
      | some d => parseNatAux cs (acc * 10 + d)
      | none => none

/-- Python `int(s)` on a decimal numeral with optional leading minus sign
(`none` where the source raises `ValueError`). -/
def parseIntStr (s : String) : Option Int :=
  match s.toList with
  | [] => none
  | '-' :: cs => if cs = [] then none else (parseNatAux cs 0).map (fun n => -(n : Int))
  | cs => (parseNatAux cs 0).map (fun n => (n : Int))

/-- `int(size_bytes.decode('utf-8') if size_bytes else 0)` (cache.py:209,
288).  `None` and the empty byte string are falsy, giving 0; the cache only
ever stores decimal numerals at the size key, so the parse (which raises on
other strings in the source) is defaulted to 0. -/
def parseSize (b : Option Bytes) : Int :=
  match b with
  | some s => if s = "" then 0 else (parseIntStr s).getD 0
  | none => 0

/-- `Cache.__init__` (cache.py:149-151): store `b"0"` at the size key when
it does not exist yet. -/
def Cache.init (now : Nat) (st : MemoryStore) : MemoryStore :=
  let p := st.exists_ now cache_size_key
  if p.1 then p.2 else (MemoryStore.set now p.2 cache_size_key "0" none).2

/-- `Cache.get` (cache.py:160-186): miss when the payload key does not
exist; otherwise move the key to the recency-list tail through one pipeline,
then read the payload (an empty byte string is falsy and reads as a miss,
cache.py:184). -/
def Cache.get (_c : Cache) (now : Nat) (st : MemoryStore) (key : String) :
    Option Bytes × MemoryStore :=
  let data_key := dataKey key
  let p := st.exists_ now data_key
  if !p.1 then (none, p.2)
  else
    let st2 := runPipe now p.2 [Op.lrem cache_list_key 1 key, Op.rpush cache_list_key [key]]
    let q := MemoryStore.get now st2 data_key
    match q.1 with
    | some b => (if b = "" then none else some b, q.2)
    | none => (none, q.2)

/-- `Cache.set` (cache.py:188-238).  `value_bytes` is the already serialized
payload.  For a new key: read the size counter, evict the recency-list head
when at capacity (or queue a size reset when the list is unexpectedly
empty — the empty string is falsy, so `lindex` returning `""` also takes the
reset branch), and queue a size increment.  For an existing key: only
dequeue its old list position.  Both branches then append the key at the
tail and write the payload with `setex`. -/
def Cache.set (c : Cache) (now : Nat) (st : MemoryStore) (key : String)
    (value_bytes : Bytes) (ttl : Option Nat) : MemoryStore :=
  let data_key := dataKey key
  let p := st.exists_ now data_key
  let ttl' := ttl.getD c.ttl
  if !p.1 then
    let q := MemoryStore.get now p.2 cache_size_key
    let current_size := parseSize q.1
    let evictOps :=
      if c.max_size ≤ current_size then
        match q.2.lindex cache_list_key 0 with
        | some oldest =>
            if oldest = "" then [Op.set cache_size_key "0" none]
            else [Op.lrem cache_list_key 1 oldest, Op.delete (dataKey oldest)]
        | none => [Op.set cache_size_key "0" none]
      else []
    runPipe now q.2 (evictOps ++
      [Op.incr cache_size_key, Op.rpush cache_list_key [key],
       Op.set data_key value_bytes (some ttl')])
  else
    runPipe now p.2
      [Op.lrem cache_list_key 1 key, Op.rpush cache_list_key [key],
       Op.set data_key value_bytes (some ttl')]

/-- `Cache.delete` (cache.py:240-263). -/
def Cache.delete (now : Nat) (st : MemoryStore) (key : String) :
    Bool × MemoryStore :=
  let data_key := dataKey key
  let p := st.exists_ now data_key
  if !p.1 then (false, p.2)
  else
    (true, runPipe now p.2
      [Op.delete data_key, Op.lrem cache_list_key 1 key, Op.decr cache_size_key])

/-- `Cache.clear` (cache.py:265-278): read the recency list, then one
pipeline deleting every listed payload, deleting the list key, and writing
`b"0"` at the size key. -/
def Cache.clear (now : Nat) (st : MemoryStore) : MemoryStore :=
  let keys := st.lrange cache_list_key 0 (-1)
  runPipe now st (keys.map (fun k => Op.delete (dataKey k)) ++
    [Op.delete cache_list_key, Op.set cache_size_key "0" none])

/-- `Cache.get_stats` (cache.py:280-295): two independent reads; the result
triple is `(size, max_size, keys)`. -/
def Cache.get_stats (c : Cache) (now : Nat) (st : MemoryStore) :
    (Int × Int × List String) × MemoryStore :=
  let q := MemoryStore.get now st cache_size_key
  let size := parseSize q.1
  let keys := q.2.lrange cache_list_key 0 (-1)
  ((size, c.max_size, keys), q.2)

/-! ## Key fingerprinting (`Cache._generate_key`, cache.py:153-158) -/

/-- The order Python's `sorted` uses on `kwargs.items()`: lexicographic on
the (name, value) pair, comparing values only when the names are equal. -/
def pairRel (p q : String × String) : Prop :=
  p.1 < q.1 ∨ (p.1 = q.1 ∧ p.2 ≤ q.2)

instance : DecidableRel pairRel := fun p q => by
  unfold pairRel; infer_instance

/-- `sorted(kwargs.items())` (cache.py:156).  Python's sort is a stable
mergesort; with respect to the total, antisymmetric, transitive order
`pairRel` every sorting algorithm returns the same list, so insertion sort
models it. -/
def sortPairs (kwargs : List (String × String)) : List (String × String) :=
  kwargs.insertionSort pairRel

/-- `Cache._generate_key` (cache.py:153-158).  The hashing step
(`hashlib.md5(...).hexdigest()`) is abstracted as the `hash` parameter;
positional arguments enter as their `str(...)` forms. -/
def _generate_key (hash : String → String) (args : List String)
    (kwargs : List (String × String)) : String :=
  let key_parts := args ++ (sortPairs kwargs).map (fun p => p.1 ++ ":" ++ p.2)
  hash (String.intercalate ":" key_parts)

/-! ## Concrete runs used by counterexamples and witnesses -/

/-- A cache of capacity 1 over a fresh in-memory store. -/
def cacheOne : Cache := ⟨1, 3600⟩

/-- Store state after `Cache.__init__` over a fresh `MemoryStore` at time 0. -/
def stInit : MemoryStore := Cache.init 0 MemoryStore.empty

/-- `stInit` after `cache.set("a", "va")`. -/
def stA : MemoryStore := cacheOne.set 0 stInit "a" "va" none

/-- `stA` after `cache.set("b", "vb")` — the capacity-1 cache now holds a
second distinct key. -/
def stAB : MemoryStore := cacheOne.set 0 stA "b" "vb" none

/-- `stA` after `cache.clear()`. -/
def stClear : MemoryStore := Cache.clear 0 stA

/-- The pipeline of `test_execute_with_exception`: two queued operations,
bound to a store whose `get` raises. -/
def pipeFail : MemoryPipeline MemoryStore :=
  ⟨MemoryStore.empty, [Op.get "key1", Op.set "key2" "value2" none]⟩

/-- The declarative form of forward occurrence removal: drop the first `n`
occurrences of `v`, scanning front-to-back (the wording of the `lrem`
contract). -/
def removeOccsFwd : List String → String → Nat → List String
  | l, _, 0 => l
  | [], _, _ + 1 => []
  | x :: xs, v, n + 1 =>
      if x = v then removeOccsFwd xs v n else x :: removeOccsFwd xs v (n + 1)

/-- A 32-character constant "hash", standing in for `md5(...).hexdigest()`
in witnesses. -/
def constHash : String → String := fun _ => "0123456789abcdef0123456789abcdef"

/-- Remove the first occurrence of `v` when present, else leave the list
unchanged — the effect of a pipelined `lrem(list, 1, v)` on an existing
list. -/
def eraseOnce (l : List String) (v : String) : List String :=
  (removeFirstOcc l v).getD l

/-! ## Theorems -/

/-- A `_check_expiry` call that reports `false` leaves the store unchanged. -/
theorem check_expiry_false_state (now : Nat) (st : MemoryStore) (k : String)
    (h : (st._check_expiry now k).1 = false) : st._check_expiry now k = (false, st) := by
  unfold MemoryStore._check_expiry at h ⊢
  cases he : st.expiry k with
  | none => rfl
  | some e =>
      rw [he] at h
      by_cases hlt : e < now
      · simp [hlt] at h
      · simp [hlt]

/-- A true `exists` means the key was not expired (so the store is
unchanged) and the payload is present. -/
theorem exists_true_elim (now : Nat) (st : MemoryStore) (k : String)
    (h : (MemoryStore.exists_ now st k).1 = true) :
    st._check_expiry now k = (false, st) ∧ (st.data k).isSome = true := by
  unfold MemoryStore.exists_ at h
  rcases hc : st._check_expiry now k with ⟨b, st2⟩
  rw [hc] at h
  cases b with
  | true => simp at h
  | false =>
      have hst : st._check_expiry now k = (false, st) :=
        check_expiry_false_state now st k (by rw [hc])
      have hs : st2 = st := congrArg Prod.snd (hc.symm.trans hst)
      subst hs
      simp only [Bool.false_eq_true, if_false] at h
      exact ⟨rfl, h⟩

/-- `MemoryStore.get` never changes the `lists` dictionary. -/
theorem get_snd_lists (now : Nat) (st : MemoryStore) (k : String) :
    (MemoryStore.get now st k).2.lists = st.lists := by
  cases he : st.expiry k with
  | none => simp [MemoryStore.get, MemoryStore._check_expiry, he]
  | some e =>
      by_cases hlt : e < now <;>
        simp [MemoryStore.get, MemoryStore._check_expiry, he, hlt]

/-- `MemoryStore.get` never changes the `counters` dictionary. -/
theorem get_snd_counters (now : Nat) (st : MemoryStore) (k : String) :
    (MemoryStore.get now st k).2.counters = st.counters := by
  cases he : st.expiry k with
  | none => simp [MemoryStore.get, MemoryStore._check_expiry, he]
  | some e =>
      by_cases hlt : e < now <;>
        simp [MemoryStore.get, MemoryStore._check_expiry, he, hlt]

/-- `lrange` only looks at the `lists` dictionary. -/
theorem lrange_congr (st1 st2 : MemoryStore) (k : String) (a b : Int)
    (h : st1.lists = st2.lists) :
    st1.lrange k a b = st2.lrange k a b := by
  unfold MemoryStore.lrange
  rw [h]

/-- The `keys` component of `get_stats` is the current recency list. -/
theorem get_stats_keys (c : Cache) (now : Nat) (st : MemoryStore) :
    ((c.get_stats now st).1).2.2 = st.lrange cache_list_key 0 (-1) := by
  show (MemoryStore.get now st cache_size_key).2.lrange cache_list_key 0 (-1) =
    st.lrange cache_list_key 0 (-1)
  exact lrange_congr _ _ _ _ _ (get_snd_lists now st cache_size_key)

/-- The `size` component of `get_stats` is the parsed byte value at the
size key. -/
theorem get_stats_size (c : Cache) (now : Nat) (st : MemoryStore) :
    ((c.get_stats now st).1).1 = parseSize (MemoryStore.get now st cache_size_key).1 := rfl

/-- The payload keys never collide with the size-counter key. -/
theorem dataKey_ne_size (k : String) : dataKey k ≠ cache_size_key := by
  intro h
  have hlen : (dataKey k).length = 15 + k.length := by
    have h15 : ("lru_cache:data:" : String).length = 15 := rfl
    simp [dataKey, String.length_append, h15]
  rw [h] at hlen
  have h14 : cache_size_key.length = 14 := rfl
  omega

/-- The result of `MemoryStore.get` only depends on the `data` and `expiry`
entries of the queried key. -/
theorem get_fst_congr (now : Nat) (st1 st2 : MemoryStore) (k : String)
    (hd : st1.data k = st2.data k) (he : st1.expiry k = st2.expiry k) :
    (MemoryStore.get now st1 k).1 = (MemoryStore.get now st2 k).1 := by
  unfold MemoryStore.get MemoryStore._check_expiry
  rw [he]
  cases h2 : st2.expiry k with
  | none => simp [hd]
  | some e =>
      by_cases hlt : e < now
      · simp [hlt]
      · simp [hlt, hd]

/-- C9: in the in-memory store the counter namespace is disjoint from the
byte-value namespace.  For every state and every key, `incr`/`decr` leave
`data`, `expiry` and `lists` untouched (so `get` of any key is unaffected)
and `set` leaves `counters` untouched; in particular, when the counter has
never been used, the first `incr` after `set(k, b"5")` still returns 1. -/
theorem c9_counter_namespace_disjoint (st : MemoryStore) (k k' : String)
    (now : Nat) (v : Bytes) (ttl : Option Nat) :
    (st.incr k).2.data = st.data ∧ (st.incr k).2.expiry = st.expiry ∧
    (st.incr k).2.lists = st.lists ∧
    (st.decr k).2.data = st.data ∧ (st.decr k).2.expiry = st.expiry ∧
    (st.decr k).2.lists = st.lists ∧
    (MemoryStore.get now (st.incr k).2 k').1 = (MemoryStore.get now st k').1 ∧
    (MemoryStore.get now (st.decr k).2 k').1 = (MemoryStore.get now st k').1 ∧
    (MemoryStore.set now st k v ttl).2.counters = st.counters ∧
    (st.counters k = none → ((MemoryStore.set now st k v ttl).2.incr k).1 = 1) := by
  refine ⟨rfl, rfl, rfl, rfl, rfl, rfl,
    get_fst_congr now (st.incr k).2 st k' rfl rfl,
    get_fst_congr now (st.decr k).2 st k' rfl rfl, rfl, ?_⟩
  intro h
  simp [MemoryStore.incr, MemoryStore.set, h]

/-- Witness for C9 at concrete input: fresh store, key `"k"`, value `"5"`;
the fresh counter discharges the antecedent of the first-incr clause. -/
theorem c9_counter_namespace_disjoint_witness :
    MemoryStore.empty.counters "k" = none ∧
    ((MemoryStore.empty.incr "k").2.data = MemoryStore.empty.data ∧
     (MemoryStore.empty.incr "k").2.expiry = MemoryStore.empty.expiry ∧
     (MemoryStore.empty.incr "k").2.lists = MemoryStore.empty.lists ∧
     (MemoryStore.empty.decr "k").2.data = MemoryStore.empty.data ∧
     (MemoryStore.empty.decr "k").2.expiry = MemoryStore.empty.expiry ∧
     (MemoryStore.empty.decr "k").2.lists = MemoryStore.empty.lists ∧
     (MemoryStore.get 0 (MemoryStore.empty.incr "k").2 "k").1 =
       (MemoryStore.get 0 MemoryStore.empty "k").1 ∧
     (MemoryStore.get 0 (MemoryStore.empty.decr "k").2 "k").1 =
       (MemoryStore.get 0 MemoryStore.empty "k").1 ∧
     (MemoryStore.set 0 MemoryStore.empty "k" "5" none).2.counters =
       MemoryStore.empty.counters ∧
     (MemoryStore.empty.counters "k" = none →
       ((MemoryStore.set 0 MemoryStore.empty "k" "5" none).2.incr "k").1 = 1)) :=
  ⟨rfl, c9_counter_namespace_disjoint MemoryStore.empty "k" "k" 0 "5" none⟩

/-- C7: a key set with `ttl = t` at time `now0` is retrievable (with its
stored value) at every time up to `now0 + t`, absent (for both `get` and
`exists`) at every time strictly past `now0 + t`, and — for every store
state and time — `get` returns absent exactly when `exists` returns
false. -/
theorem c7_ttl_expiry (st : MemoryStore) (k : String) (v : Bytes)
    (t now0 : Nat) (st' : MemoryStore)
    (hst : st' = (MemoryStore.set now0 st k v (some t)).2) :
    (∀ now, now ≤ now0 + t →
      MemoryStore.get now st' k = (some v, st') ∧
      (MemoryStore.exists_ now st' k).1 = true) ∧
    (∀ now, now0 + t < now →
      (MemoryStore.get now st' k).1 = none ∧
      (MemoryStore.exists_ now st' k).1 = false) ∧
    (∀ st2 now,
      ((MemoryStore.get now st2 k).1 = none ↔ (MemoryStore.exists_ now st2 k).1 = false)) := by
  have hdata : st'.data k = some v := by simp [hst, MemoryStore.set, upd]
  have hexp : st'.expiry k = some (now0 + t) := by simp [hst, MemoryStore.set, upd]
  refine ⟨?_, ?_, ?_⟩
  · intro now hnow
    have hlt : ¬ (now0 + t < now) := Nat.not_lt.mpr hnow
    constructor
    · unfold MemoryStore.get MemoryStore._check_expiry
      rw [hexp]
      simp [hlt, hdata]
    · unfold MemoryStore.exists_ MemoryStore._check_expiry
      rw [hexp]
      simp [hlt, hdata]
  · intro now hnow
    constructor
    · unfold MemoryStore.get MemoryStore._check_expiry
      rw [hexp]
      simp [hnow]
    · unfold MemoryStore.exists_ MemoryStore._check_expiry
      rw [hexp]
      simp [hnow]
  · intro st2 now
    unfold MemoryStore.get MemoryStore.exists_ MemoryStore._check_expiry
    cases he : st2.expiry k with
    | none => cases hd : st2.data k <;> simp [hd]
    | some e =>
        by_cases hlt : e < now
        · simp [hlt]
        · cases hd : st2.data k <;> simp [hlt, hd]

/-- Witness for C7 at concrete input: fresh store, `set("k", "v", ttl=10)`
at time 100. -/
theorem c7_ttl_expiry_witness :
    ((MemoryStore.set 100 MemoryStore.empty "k" "v" (some 10)).2 =
      (MemoryStore.set 100 MemoryStore.empty "k" "v" (some 10)).2) ∧
    ((∀ now, now ≤ 100 + 10 →
      MemoryStore.get now (MemoryStore.set 100 MemoryStore.empty "k" "v" (some 10)).2 "k" =
        (some "v", (MemoryStore.set 100 MemoryStore.empty "k" "v" (some 10)).2) ∧
      (MemoryStore.exists_ now (MemoryStore.set 100 MemoryStore.empty "k" "v" (some 10)).2 "k").1 = true) ∧
    (∀ now, 100 + 10 < now →
      (MemoryStore.get now (MemoryStore.set 100 MemoryStore.empty "k" "v" (some 10)).2 "k").1 = none ∧
      (MemoryStore.exists_ now (MemoryStore.set 100 MemoryStore.empty "k" "v" (some 10)).2 "k").1 = false) ∧
    (∀ st2 now,
      ((MemoryStore.get now st2 "k").1 = none ↔ (MemoryStore.exists_ now st2 "k").1 = false))) :=
  ⟨rfl, c7_ttl_expiry MemoryStore.empty "k" "v" 10 100 _ rfl⟩

/-- Against the real in-memory store, every pipelined operation succeeds
and has the effect recorded by `applyOpPure`. -/
theorem applyOp_memory (now : Nat) (s : MemoryStore) (op : Op) :
    applyOp (memoryImpl now) s op = Except.ok
      ((match op with
        | .get k => OpResult.bytes (MemoryStore.get now s k).1
        | .set k v t => OpResult.bool (MemoryStore.set now s k v t).1
        | .delete k => OpResult.bool (MemoryStore.delete s k).1
        | .lrem k c v => OpResult.nat (MemoryStore.lrem s k c v).1
        | .rpush k vs => OpResult.nat (MemoryStore.rpush s k vs).1
        | .incr k => OpResult.int (MemoryStore.incr s k).1
        | .decr k => OpResult.int (MemoryStore.decr s k).1),
       applyOpPure now s op) := by
  cases op <;> rfl

/-- The store state after the execute loop over the real in-memory store is
a left fold of the per-operation effects. -/
theorem execLoop_memory_state (now : Nat) :
    ∀ (ops : List Op) (s : MemoryStore),
      (execLoop (memoryImpl now) s ops).2 = ops.foldl (applyOpPure now) s := by
  intro ops
  induction ops with
  | nil => intro s; rfl
  | cons op ops ih =>
      intro s
      have hrec := ih (applyOpPure now s op)
      rw [execLoop, applyOp_memory]
      simp only [List.foldl]
      rcases hx : execLoop (memoryImpl now) (applyOpPure now s op) ops with ⟨r', s''⟩
      rw [hx] at hrec
      cases r' <;> simpa using hrec

/-- Executing a one-shot pipeline over the real in-memory store folds the
queued operations over the store. -/
theorem runPipe_foldl (now : Nat) (st : MemoryStore) (ops : List Op) :
    runPipe now st ops = ops.foldl (applyOpPure now) st := by
  unfold runPipe MemoryPipeline.execute
  have hs := execLoop_memory_state now ops st
  rcases hx : execLoop (memoryImpl now) st ops with ⟨r, s'⟩
  rw [hx] at hs
  cases r <;> simpa using hs

/-- Two maps updated at the same key collapse to the latter update. -/
theorem upd_upd (m : String → Option α) (k : String) (a b : Option α) :
    upd (upd m k a) k b = upd m k b := by
  funext k'
  by_cases h : k' = k <;> simp [upd, h]

/-- The effect of the pipelined pair `lrem(list, 1, v)`, `rpush(list, v)`:
the first occurrence of `v` (if any) is dropped and `v` is appended at the
tail; nothing else changes. -/
theorem lrem_rpush_state (now : Nat) (st : MemoryStore) (k v : String) :
    applyOpPure now (applyOpPure now st (Op.lrem k 1 v)) (Op.rpush k [v]) =
      { st with lists := upd st.lists k (some (eraseOnce ((st.lists k).getD []) v ++ [v])) } := by
  cases hl : st.lists k with
  | none =>
      simp [applyOpPure, MemoryStore.lrem, MemoryStore.rpush, hl, eraseOnce,
        removeFirstOcc]
  | some l =>
      have h1 : (lremPosLoop 1 l v).1 = eraseOnce l v := by
        unfold eraseOnce
        cases hro : removeFirstOcc l v <;> simp [lremPosLoop, hro]
      simp [applyOpPure, MemoryStore.lrem, MemoryStore.rpush, hl, h1, upd_upd, upd]

/-- Python `list.remove` is `List.erase` on a present element; it signals
`ValueError` (here `none`) exactly when the element is absent. -/
theorem removeFirstOcc_eq (l : List String) (v : String) :
    removeFirstOcc l v = if v ∈ l then some (l.erase v) else none := by
  induction l with
  | nil => simp [removeFirstOcc]
  | cons x xs ih =>
      by_cases hx : x = v
      · subst hx
        simp [removeFirstOcc, List.erase_cons_head]
      · have hbx : ¬ (x == v) = true := by simpa using hx
        by_cases hm : v ∈ xs
        · simp [removeFirstOcc, hx, ih, hm, List.erase_cons_tail hbx, Ne.symm hx]
        · simp [removeFirstOcc, hx, ih, hm, Ne.symm hx]

/-- Dropping occurrences of an absent value changes nothing. -/
theorem removeOccsFwd_not_mem (l : List String) (v : String) (n : Nat) (h : v ∉ l) :
    removeOccsFwd l v n = l := by
  induction l generalizing n with
  | nil => cases n <;> rfl
  | cons x xs ih =>
      cases n with
      | zero => rfl
      | succ n =>
          have hx : x ≠ v := by rintro rfl; exact h (List.mem_cons_self x xs)
          have hxs : v ∉ xs := fun hm => h (List.mem_cons_of_mem _ hm)
          simp [removeOccsFwd, hx, ih _ hxs]

/-- Dropping `n + 1` occurrences of a present value is erasing the first
occurrence and dropping `n` more. -/
theorem removeOccsFwd_succ_mem (l : List String) (v : String) (n : Nat) (h : v ∈ l) :
    removeOccsFwd l v (n + 1) = removeOccsFwd (l.erase v) v n := by
  induction l with
  | nil => cases h
  | cons x xs ih =>
      by_cases hx : x = v
      · subst hx
        simp [removeOccsFwd, List.erase_cons_head]
      · have hbx : ¬ (x == v) = true := by simpa using hx
        have hm : v ∈ xs := by
          rcases List.mem_cons.mp h with h1 | h1
          · exact absurd h1.symm hx
          · exact h1
        rw [List.erase_cons_tail hbx]
        cases n with
        | zero => simp [removeOccsFwd, hx, ih hm]
        | succ m => simp [removeOccsFwd, hx, ih hm]

/-- The `count > 0` loop of `lrem` drops the first `n` occurrences and
returns how many were actually removed. -/
theorem lremPosLoop_eq (v : String) : ∀ (n : Nat) (l : List String),
    lremPosLoop n l v = (removeOccsFwd l v n, min n (List.count v l)) := by
  intro n
  induction n with
  | zero => intro l; simp [lremPosLoop, removeOccsFwd]
  | succ n ih =>
      intro l
      rw [lremPosLoop, removeFirstOcc_eq]
      by_cases hm : v ∈ l
      · simp only [hm, if_true, ih]
        rw [Prod.mk.injEq]
        refine ⟨(removeOccsFwd_succ_mem l v n hm).symm, ?_⟩
        rw [List.count_erase_self]
        have hpos : 0 < List.count v l := List.count_pos_iff.mpr hm
        omega
      · simp only [hm, if_false]
        rw [removeOccsFwd_not_mem l v (n + 1) hm]
        have hz : List.count v l = 0 := List.count_eq_zero.mpr hm
        simp [hz]

/-- Erasing at the index of the first occurrence is `List.erase`. -/
theorem eraseIdx_indexOf (m : List String) (v : String) (h : v ∈ m) :
    m.eraseIdx (List.indexOf v m) = m.erase v := by
  induction m with
  | nil => cases h
  | cons x xs ih =>
      by_cases hx : x = v
      · subst hx
        rw [List.indexOf_cons_self, List.eraseIdx_cons_zero, List.erase_cons_head]
      · have hm : v ∈ xs := by
          rcases List.mem_cons.mp h with h1 | h1
          · exact absurd h1.symm hx
          · exact h1
        have hbx : ¬ (x == v) = true := by simpa using hx
        rw [List.indexOf_cons_ne xs hx, List.erase_cons_tail hbx]
        show (x :: xs).eraseIdx (List.indexOf v xs + 1) = x :: xs.erase v
        rw [List.eraseIdx_cons_succ, ih hm]

/-- Erasing position `len - 1 - j` of the original list is erasing position
`j` of the reversed list — the index computation of the source's
backwards removal. -/
theorem reverse_eraseIdx : ∀ (m : List String) (j : Nat), j < m.length →
    m.reverse.eraseIdx (m.length - 1 - j) = (m.eraseIdx j).reverse := by
  intro m
  induction m with
  | nil => intro j h; cases h
  | cons x xs ih =>
      intro j hj
      cases j with
      | zero =>
          rw [List.reverse_cons, List.eraseIdx_cons_zero]
          have harith : (x :: xs).length - 1 - 0 = xs.reverse.length := by
            simp [List.length_reverse]
          rw [harith, List.eraseIdx_append_of_length_le (le_refl _)]
          simp
      | succ j =>
          have hj' : j < xs.length := by simpa using hj
          rw [List.reverse_cons, List.eraseIdx_cons_succ, List.reverse_cons]
          have harith : (x :: xs).length - 1 - (j + 1) = xs.length - 1 - j := by
            simp only [List.length_cons]; omega
          have hlt : xs.length - 1 - j < xs.reverse.length := by
            rw [List.length_reverse]; omega
          rw [harith, List.eraseIdx_append_of_lt_length hlt, ih j hj']

/-- One step of back-to-front removal: erase the last occurrence, i.e. the
first occurrence of the reversed list. -/
theorem removeLastOcc_eq (l : List String) (v : String) :
    removeLastOcc l v = if v ∈ l then some ((l.reverse.erase v).reverse) else none := by
  unfold removeLastOcc
  by_cases hm : v ∈ l
  · have hmr : v ∈ l.reverse := List.mem_reverse.mpr hm
    obtain ⟨j, hj⟩ : ∃ j, List.indexOf? v l.reverse = some j := by
      cases hq : List.indexOf? v l.reverse with
      | none =>
          exfalso
          have hall := List.indexOf?_eq_none_iff.mp hq
          have := hall v hmr
          simp at this
      | some j => exact ⟨j, rfl⟩
    have hj' : List.indexOf v l.reverse = j := by
      rw [List.indexOf_eq_indexOf?, hj]
    have hjlt : j < l.reverse.length := by
      rw [← hj']
      exact List.indexOf_lt_length.mpr hmr
    have hkey := reverse_eraseIdx l.reverse j hjlt
    rw [List.reverse_reverse, List.length_reverse] at hkey
    simp only [hj, hm, if_true]
    rw [hkey, ← hj', eraseIdx_indexOf l.reverse v hmr]
  · have hnone : List.indexOf? v l.reverse = none := by
      rw [List.indexOf?_eq_none_iff]
      intro x hx
      simp only [beq_iff_eq]
      rintro rfl
      exact hm (List.mem_reverse.mp hx)
    simp only [hnone, hm, if_false]

/-- The `count < 0` loop of `lrem` drops the last `n` occurrences (the
first `n` of the reversed list) and returns how many were removed. -/
theorem lremNegLoop_eq (v : String) : ∀ (n : Nat) (l : List String),
    lremNegLoop n l v = ((removeOccsFwd l.reverse v n).reverse, min n (List.count v l)) := by
  intro n
  induction n with
  | zero => intro l; simp [lremNegLoop, removeOccsFwd]
  | succ n ih =>
      intro l
      rw [lremNegLoop, removeLastOcc_eq]
      by_cases hm : v ∈ l
      · simp only [hm, if_true, ih]
        rw [Prod.mk.injEq]
        constructor
        · rw [List.reverse_reverse,
            removeOccsFwd_succ_mem l.reverse v n (List.mem_reverse.mpr hm)]
        · rw [List.count_reverse, List.count_erase_self, List.count_reverse]
          have hpos : 0 < List.count v l := List.count_pos_iff.mpr hm
          omega
      · simp only [hm, if_false]
        have hnr : v ∉ l.reverse := fun hh => hm (List.mem_reverse.mp hh)
        rw [removeOccsFwd_not_mem l.reverse v (n + 1) hnr, List.reverse_reverse]
        have hz : List.count v l = 0 := List.count_eq_zero.mpr hm
        simp [hz]

/-- The `count == 0` case: the length drop of the filter is the occurrence
count. -/
theorem filter_ne_length (l : List String) (v : String) :
    l.length - (l.filter (fun x => x != v)).length = List.count v l := by
  induction l with
  | nil => rfl
  | cons x xs ih =>
      have hle := List.length_filter_le (fun x => x != v) xs
      by_cases hx : x = v
      · subst hx
        have h1 : List.count x (x :: xs) = List.count x xs + 1 := by
          simp [List.count_cons]
        have h2 : (x :: xs).filter (fun y => y != x) = xs.filter (fun y => y != x) := by
          simp [List.filter_cons]
        rw [h1, h2, List.length_cons]
        omega
      · have h1 : List.count v (x :: xs) = List.count v xs := by
          simp [List.count_cons, hx]
        have h2 : (x :: xs).filter (fun y => y != v) = x :: xs.filter (fun y => y != v) := by
          simp [List.filter_cons, hx]
        rw [h1, h2, List.length_cons, List.length_cons]
        omega

/-- C5: `lrem` semantics.  With `count > 0` it removes the first `count`
occurrences scanning front-to-back; with `count < 0` the last `|count|`
occurrences scanning back-to-front (removal of the first occurrences of the
reversed list); with `count == 0` every occurrence.  It returns the number
actually removed (the minimum of the request and the occurrence count,
possibly fewer than `|count|`), and 0 with the store unchanged when the
list key is missing. -/
theorem c5_lrem_semantics (st : MemoryStore) (key value : String) (count : Int) :
    MemoryStore.lrem st key count value =
      match st.lists key with
      | none => (0, st)
      | some l =>
          if 0 < count then
            (min count.toNat (List.count value l),
             { st with lists := upd st.lists key (some (removeOccsFwd l value count.toNat)) })
          else if count < 0 then
            (min count.natAbs (List.count value l),
             { st with lists := upd st.lists key (some ((removeOccsFwd l.reverse value count.natAbs).reverse)) })
          else
            (List.count value l,
             { st with lists := upd st.lists key (some (l.filter (fun x => x != value))) }) := by
  unfold MemoryStore.lrem
  cases hl : st.lists key with
  | none => rfl
  | some l =>
      by_cases h1 : 0 < count
      · simp only [h1, if_true, lremPosLoop_eq value count.toNat l]
      · by_cases h2 : count < 0
        · simp only [h1, h2, if_true, if_false, lremNegLoop_eq value count.natAbs l]
        · simp only [h1, h2, if_false]
          rw [filter_ne_length]

instance : IsTrans (String × String) pairRel where
  trans := by
    rintro ⟨a1, a2⟩ ⟨b1, b2⟩ ⟨c1, c2⟩ (h1 | ⟨h1, h1'⟩) (h2 | ⟨h2, h2'⟩)
    · exact Or.inl (lt_trans h1 h2)
    · exact Or.inl (lt_of_lt_of_eq h1 h2)
    · exact Or.inl (lt_of_eq_of_lt h1 h2)
    · exact Or.inr ⟨h1.trans h2, le_trans h1' h2'⟩

instance : IsAntisymm (String × String) pairRel where
  antisymm := by
    rintro ⟨a1, a2⟩ ⟨b1, b2⟩ (h1 | ⟨h1, h1'⟩) (h2 | ⟨h2, h2'⟩)
    · exact absurd h2 (lt_asymm h1)
    · exact absurd (lt_of_lt_of_eq h1 h2) (lt_irrefl _)
    · exact absurd (lt_of_lt_of_eq h2 h1) (lt_irrefl _)
    · subst h1
      have h := le_antisymm h1' h2'
      subst h
      rfl

instance : IsTotal (String × String) pairRel where
  total := by
    rintro ⟨a1, a2⟩ ⟨b1, b2⟩
    rcases lt_trichotomy a1 b1 with h | h | h
    · exact Or.inl (Or.inl h)
    · rcases le_total a2 b2 with h2 | h2
      · exact Or.inl (Or.inr ⟨h, h2⟩)
      · exact Or.inr (Or.inr ⟨h.symm, h2⟩)
    · exact Or.inr (Or.inl h)

/-- Sorting with respect to the total, transitive, antisymmetric order
`pairRel` is canonical: permuted inputs sort to the same list (this is why
Python's `sorted(kwargs.items())` makes the fingerprint independent of
keyword order). -/
theorem sortPairs_perm_eq (kw1 kw2 : List (String × String)) (h : kw1.Perm kw2) :
    sortPairs kw1 = sortPairs kw2 := by
  refine List.eq_of_perm_of_sorted ?_ (List.sorted_insertionSort pairRel kw1)
    (List.sorted_insertionSort pairRel kw2)
  exact (List.perm_insertionSort pairRel kw1).trans
    (h.trans (List.perm_insertionSort pairRel kw2).symm)

/-- C8: key fingerprinting is deterministic.  For equal positional string
forms and named arguments equal up to order (a permutation of the
name/value pairs), `_generate_key` produces the identical fingerprint; the
fingerprint is the hash of the string forms of the positional arguments
followed by the sorted `name:value` pairs joined with `":"`, and it has the
hash's fixed length (32 hex characters for `md5.hexdigest`). -/
theorem c8_generate_key_deterministic (hash : String → String)
    (args1 args2 : List String) (kw1 kw2 : List (String × String))
    (hlen : ∀ s, (hash s).length = 32)
    (hargs : args1 = args2) (hkw : kw1.Perm kw2) :
    _generate_key hash args1 kw1 = _generate_key hash args2 kw2 ∧
    (_generate_key hash args1 kw1).length = 32 ∧
    _generate_key hash args1 kw1 =
      hash (String.intercalate ":"
        (args1 ++ (sortPairs kw1).map (fun p => p.1 ++ ":" ++ p.2))) := by
  subst hargs
  refine ⟨?_, hlen _, rfl⟩
  unfold _generate_key
  rw [sortPairs_perm_eq kw1 kw2 hkw]

/-- Witness for C8 at concrete input: one positional argument and two
keyword pairs given in both orders. -/
theorem c8_generate_key_deterministic_witness :
    (∀ s, (constHash s).length = 32) ∧
    (["1"] : List String) = ["1"] ∧
    (([("b", "2"), ("a", "3")] : List (String × String)).Perm
      [("a", "3"), ("b", "2")]) ∧
    (_generate_key constHash ["1"] [("b", "2"), ("a", "3")] =
       _generate_key constHash ["1"] [("a", "3"), ("b", "2")] ∧
     (_generate_key constHash ["1"] [("b", "2"), ("a", "3")]).length = 32 ∧
     _generate_key constHash ["1"] [("b", "2"), ("a", "3")] =
       constHash (String.intercalate ":"
         (["1"] ++ (sortPairs [("b", "2"), ("a", "3")]).map
           (fun p => p.1 ++ ":" ++ p.2)))) :=
  ⟨fun _ => (by decide : ("0123456789abcdef0123456789abcdef" : String).length = 32),
   rfl, List.Perm.swap _ _ _,
   c8_generate_key_deterministic constHash ["1"] ["1"]
     [("b", "2"), ("a", "3")] [("a", "3"), ("b", "2")]
     (fun _ => (by decide : ("0123456789abcdef0123456789abcdef" : String).length = 32))
     rfl (List.Perm.swap _ _ _)⟩

/-- C6: overwriting an existing key (`set` on a key whose payload exists)
never evicts any other key and never changes the size: all `data` and
`expiry` entries other than the overwritten payload are untouched, the
counters are untouched, the key's old recency-list position is removed and
the key re-appended at the tail, other lists are untouched, and
`get_stats().size` (at any later query time `now'`) is unchanged. -/
theorem c6_overwrite_no_eviction (c : Cache) (st : MemoryStore) (key : String)
    (now now' : Nat) (v : Bytes) (ttl : Option Nat) (st' : MemoryStore)
    (h : (MemoryStore.exists_ now st (dataKey key)).1 = true)
    (hst : st' = c.set now st key v ttl) :
    (∀ d, d ≠ dataKey key → st'.data d = st.data d) ∧
    st'.counters = st.counters ∧
    (∀ d, d ≠ dataKey key → st'.expiry d = st.expiry d) ∧
    st'.lists cache_list_key =
      some (eraseOnce ((st.lists cache_list_key).getD []) key ++ [key]) ∧
    (∀ k', k' ≠ cache_list_key → st'.lists k' = st.lists k') ∧
    ((c.get_stats now' st').1).1 = ((c.get_stats now' st).1).1 := by
  obtain ⟨hchk, hsome⟩ := exists_true_elim now st (dataKey key) h
  have hset : c.set now st key v ttl =
      runPipe now st
        [Op.lrem cache_list_key 1 key, Op.rpush cache_list_key [key],
         Op.set (dataKey key) v (some (ttl.getD c.ttl))] := by
    simp [Cache.set, MemoryStore.exists_, hchk, hsome]
  rw [hset, runPipe_foldl] at hst
  simp only [List.foldl] at hst
  rw [lrem_rpush_state] at hst
  have hd : ∀ d, d ≠ dataKey key → st'.data d = st.data d := by
    intro d hdne
    rw [hst]
    simp [applyOpPure, MemoryStore.set, upd, hdne]
  have hcnt : st'.counters = st.counters := by rw [hst]; rfl
  have hexp : ∀ d, d ≠ dataKey key → st'.expiry d = st.expiry d := by
    intro d hdne
    rw [hst]
    simp [applyOpPure, MemoryStore.set, upd, hdne]
  refine ⟨hd, hcnt, hexp, ?_, ?_, ?_⟩
  · rw [hst]
    simp [applyOpPure, MemoryStore.set, upd]
  · intro k' hk'
    rw [hst]
    simp [applyOpPure, MemoryStore.set, upd, hk']
  · rw [get_stats_size, get_stats_size]
    exact congrArg parseSize
      (get_fst_congr now' st' st cache_size_key
        (hd cache_size_key (dataKey_ne_size key).symm)
        (hexp cache_size_key (dataKey_ne_size key).symm))

/-- Witness for C6 at concrete input: overwrite `"a"` (present in `stA`)
with the bytes `"v2"`. -/
theorem c6_overwrite_no_eviction_witness :
    (MemoryStore.exists_ 0 stA (dataKey "a")).1 = true ∧
    ((∀ d, d ≠ dataKey "a" →
        (cacheOne.set 0 stA "a" "v2" none).data d = stA.data d) ∧
     (cacheOne.set 0 stA "a" "v2" none).counters = stA.counters ∧
     (∀ d, d ≠ dataKey "a" →
        (cacheOne.set 0 stA "a" "v2" none).expiry d = stA.expiry d) ∧
     (cacheOne.set 0 stA "a" "v2" none).lists cache_list_key =
       some (eraseOnce ((stA.lists cache_list_key).getD []) "a" ++ ["a"]) ∧
     (∀ k', k' ≠ cache_list_key →
        (cacheOne.set 0 stA "a" "v2" none).lists k' = stA.lists k') ∧
     ((cacheOne.get_stats 0 (cacheOne.set 0 stA "a" "v2" none)).1).1 =
       ((cacheOne.get_stats 0 stA).1).1) :=
  ⟨by decide,
   c6_overwrite_no_eviction cacheOne stA "a" 0 0 "v2" none _ (by decide) rfl⟩

/-- C10: passive expiry removes only the payload and the expiry record.
When the payload of `k` has expired, `Cache.get k` detects it (through
`exists`), returns absent, and leaves `lists` and `counters` untouched: `k`
still appears in `get_stats().keys` and the size read is unchanged. -/
theorem c10_expired_key_passive (c : Cache) (st : MemoryStore) (k : String)
    (now e : Nat) (h1 : st.expiry (dataKey k) = some e) (h2 : e < now)
    (h3 : k ∈ ((c.get_stats now st).1).2.2) :
    (c.get now st k).1 = none ∧
    (c.get now st k).2.lists = st.lists ∧
    (c.get now st k).2.counters = st.counters ∧
    k ∈ ((c.get_stats now (c.get now st k).2).1).2.2 ∧
    ((c.get_stats now (c.get now st k).2).1).1 = ((c.get_stats now st).1).1 := by
  have hchk : st._check_expiry now (dataKey k) =
      (true, { st with data := upd st.data (dataKey k) none,
                       expiry := upd st.expiry (dataKey k) none }) := by
    unfold MemoryStore._check_expiry
    rw [h1]
    simp [h2]
  have hget : c.get now st k =
      (none, { st with data := upd st.data (dataKey k) none,
                       expiry := upd st.expiry (dataKey k) none }) := by
    simp [Cache.get, MemoryStore.exists_, hchk]
  rw [hget]
  have hne : cache_size_key ≠ dataKey k := (dataKey_ne_size k).symm
  have hlcongr :
      MemoryStore.lrange
        { st with data := upd st.data (dataKey k) none,
                  expiry := upd st.expiry (dataKey k) none } cache_list_key 0 (-1) =
      st.lrange cache_list_key 0 (-1) :=
    lrange_congr
      { st with data := upd st.data (dataKey k) none,
                expiry := upd st.expiry (dataKey k) none } st cache_list_key 0 (-1) rfl
  have hscongr :
      parseSize (MemoryStore.get now
        { st with data := upd st.data (dataKey k) none,
                  expiry := upd st.expiry (dataKey k) none } cache_size_key).1 =
      parseSize (MemoryStore.get now st cache_size_key).1 :=
    congrArg parseSize
      (get_fst_congr now
        { st with data := upd st.data (dataKey k) none,
                  expiry := upd st.expiry (dataKey k) none } st cache_size_key
        (by simp [upd, hne]) (by simp [upd, hne]))
  refine ⟨rfl, rfl, rfl, ?_, ?_⟩
  · rw [get_stats_keys] at h3 ⊢
    exact hlcongr.symm ▸ h3
  · rw [get_stats_size, get_stats_size]
    exact hscongr

/-- Witness for C10 at concrete input: `"a"` stored at time 0 with
ttl 3600, queried at time 4000. -/
theorem c10_expired_key_passive_witness :
    stA.expiry (dataKey "a") = some 3600 ∧ 3600 < 4000 ∧
    "a" ∈ ((cacheOne.get_stats 4000 stA).1).2.2 ∧
    ((cacheOne.get 4000 stA "a").1 = none ∧
     (cacheOne.get 4000 stA "a").2.lists = stA.lists ∧
     (cacheOne.get 4000 stA "a").2.counters = stA.counters ∧
     "a" ∈ ((cacheOne.get_stats 4000 (cacheOne.get 4000 stA "a").2).1).2.2 ∧
     ((cacheOne.get_stats 4000 (cacheOne.get 4000 stA "a").2).1).1 =
       ((cacheOne.get_stats 4000 stA).1).1) :=
  ⟨by decide, by decide, by decide,
   c10_expired_key_passive cacheOne stA "a" 4000 3600 (by decide) (by decide) (by decide)⟩

/-- C1: the claim says that with `maxSize = 1`, inserting the 2 distinct keys
`"a"` then `"b"` evicts `"a"` (its `get` returns absent) and keeps `"b"`.
Against the in-memory store the code evicts nothing: both keys are still
retrievable, because `Cache.set` bumps the size with `incr` (which writes
`MemoryStore.counters`) but reads the size back with `get` (which reads
`MemoryStore.data`, still holding the initial `b"0"`), so the capacity check
never fires.  The last two conjuncts exhibit the diverged counter: two
`incr`s landed in `counters` while the byte value read by the size check is
still `"0"`. -/
theorem c1_no_eviction_on_memory_store :
    (cacheOne.get 0 stAB "a").1 = some "va" ∧
    (cacheOne.get 0 stAB "b").1 = some "vb" ∧
    stAB.counters cache_size_key = some 2 ∧
    stAB.data cache_size_key = some "0" := by
  decide

/-- C2: the claim says that after one `set` under capacity,
`get_stats().size` is 1.  The code reports 0 — `incr` wrote the counter into
`MemoryStore.counters`, while `get_stats` reads the byte value at the size
key, still the initial `"0"` — though the `keys` component does equal the
recency list `["a"]` as claimed. -/
theorem c2_stats_size_stuck_at_zero :
    ((cacheOne.get_stats 0 stA).1).1 = 0 ∧
    ((cacheOne.get_stats 0 stA).1).2.2 = ["a"] ∧
    stA.counters cache_size_key = some 1 := by
  decide

/-- C3: the claim says that after `clear()` the stats report an empty key
list.  The code's `clear` queues `delete(cache_list_key)`, but
`MemoryStore.delete` only touches the `data` dictionary, not `lists`, so the
recency list survives: after clearing a cache holding `"a"`, stats are
`(size 0, keys ["a"])`, not `(0, [])` — while the payload itself is gone
(`get "a"` is absent) as claimed. -/
theorem c3_clear_leaves_recency_list :
    ((cacheOne.get_stats 0 stClear).1).1 = 0 ∧
    ((cacheOne.get_stats 0 stClear).1).2.2 = ["a"] ∧
    (cacheOne.get 0 stClear "a").1 = none := by
  decide

/-- C4: the claim (and `test_execute_with_exception`) says the pending
queue is empty after a failed `execute()`.  In the source the clearing
assignment (memory_store.py:181) sits after the loop, so when the bound
store's `get` raises — as the mock in that test makes it do — the exception
propagates with both queued operations still pending, and a retried
`execute()` would re-submit them. -/
theorem c4_failed_execute_keeps_queue :
    (pipeFail.execute (failingGetImpl 0)).1.toOption = none ∧
    (pipeFail.execute (failingGetImpl 0)).2.operations =
      [Op.get "key1", Op.set "key2" "value2" none] := by
  decide

end Cacheit
